import Mathlib

/-!
Verification development for the finance-tracker web application.

The repository's algorithmic content is its Financial Analytics Engine
(a stateless service turning a list of dated, signed transactions into
statistics, trends, risk metrics and a forecast) together with the React
component `src/components/FinancialAnalytics.js` that prepares the
transaction payloads, calls the four analytics endpoints and renders the
four result tabs.

The engine itself (`server/python_service.py`, started by
`server/start_services.sh`) is not part of this source tree, so the engine
is modelled from the specification; the UI component is embedded from its
JavaScript source.  All monetary quantities are modelled as rationals.
-/

namespace FinanceTracker

/-! ### Financial Analytics Engine (modelled from the spec) -/

/-- Modelled from the spec: the transaction kind, `expense` or `income`;
the sign of the contributed value is determined solely by this kind. -/
inductive TxKind where
  | expense
  | income
deriving DecidableEq

/-- Modelled from the spec: the engine's `Transaction` input record
`{ amount, type, date }` (the optional `description`/`category` strings do
not influence any computation and are omitted).  The `date` is kept as the
ISO-8601 day string. -/
structure Transaction where
  amount : ℚ
  kind : TxKind
  date : String
deriving DecidableEq

/-- Modelled from the spec: the engine-internal `SignedRecord`
`{ value, date }` with `value = -amount` for an expense and `+amount` for
an income. -/
structure SignedRecord where
  value : ℚ
  date : String
deriving DecidableEq

/-- Modelled from the spec: the signed value contributed by one
transaction; the sign is determined solely by the kind. -/
def signedValue (t : Transaction) : ℚ :=
  match t.kind with
  | .expense => -t.amount
  | .income => t.amount

/-- Error message used by the normalizer for malformed input. -/
def invalidInputMsg : String := "InvalidInput"

/-- Modelled from the spec: the Transaction Normalizer.  It rejects input
containing a negative `amount` with `InvalidInput` (records with missing
fields or unparseable dates cannot be expressed in this typed embedding),
and otherwise maps every transaction, in input order, to a `SignedRecord`. -/
def normalize (txs : List Transaction) : Except String (List SignedRecord) :=
  if txs.all (fun t => 0 ≤ t.amount) then
    .ok (txs.map fun t => ⟨signedValue t, t.date⟩)
  else
    .error invalidInputMsg

/-- Modelled from the spec: the `StatisticsResult` output record of the
Statistics Calculator.  `p25`/`p50`/`p75`/`p90` are the four reported
percentiles; `std_deviation` is kept separately as the real-valued square
root of `variance` (see `stdDeviation`). -/
structure StatisticsResult where
  count : ℕ
  total : ℚ
  mean : ℚ
  median : ℚ
  variance : ℚ
  min : ℚ
  max : ℚ
  p25 : ℚ
  p50 : ℚ
  p75 : ℚ
  p90 : ℚ
deriving DecidableEq

/-- The ascending sort of the signed value sequence. -/
def sortValues (vals : List ℚ) : List ℚ :=
  List.insertionSort (· ≤ ·) vals

/-- Modelled from the spec: linear interpolation between order statistics
of an ascending sorted sequence at a (rational) rank `r`: with `f = ⌊r⌋`,
the value is `s[f] + (r − f)·(s[f+1] − s[f])`, where the lookup at `f + 1`
falls back to `s[f]` when the ceil rank coincides with the floor rank at
the top of the range.  On the empty sequence every lookup defaults and the
result is `0`. -/
def interpAt (s : List ℚ) (r : ℚ) : ℚ :=
  s.getD ⌊r⌋.toNat 0 + (r - (⌊r⌋.toNat : ℚ)) *
    (s.getD (⌊r⌋.toNat + 1) (s.getD ⌊r⌋.toNat 0) - s.getD ⌊r⌋.toNat 0)

/-- Modelled from the spec: the percentile of an ascending sorted sequence
for `p ∈ [0,1]`, via linear interpolation at rank `p·(count − 1)`;
`0` on the empty sequence. -/
def percentileOfSorted (s : List ℚ) (p : ℚ) : ℚ :=
  interpAt s (p * ((s.length : ℚ) - 1))

/-- Modelled from the spec: the median of an ascending sorted sequence:
its midpoint element for odd length, the average of the two central
elements for even length, and `0` when empty. -/
def medianOfSorted (s : List ℚ) : ℚ :=
  if s.length % 2 = 1 then s.getD (s.length / 2) 0
  else (s.getD (s.length / 2 - 1) 0 + s.getD (s.length / 2) 0) / 2

/-- Modelled from the spec: the Statistics Calculator.  `mean`/`total` are
the arithmetic mean and sum, `variance` the population variance, `median`
the midpoint of the sorted sequence, `min`/`max` its endpoints, and the
percentiles use linear interpolation at rank `p·(count − 1)`.  Rational
division by zero is `0`, so the empty input yields the all-zero record the
spec requires. -/
def computeStatistics (vals : List ℚ) : StatisticsResult :=
  let s := sortValues vals
  let n : ℚ := (vals.length : ℚ)
  { count := vals.length
    total := vals.sum
    mean := vals.sum / n
    median := medianOfSorted s
    variance := (vals.map (fun v => (v - vals.sum / n) ^ 2)).sum / n
    min := s.headD 0
    max := s.getLastD 0
    p25 := percentileOfSorted s (25 / 100)
    p50 := percentileOfSorted s (50 / 100)
    p75 := percentileOfSorted s (75 / 100)
    p90 := percentileOfSorted s (90 / 100) }

/-- Modelled from the spec: `std_deviation` is the square root of the
population variance; it is kept as a real-valued function of the result
record because the square root of a rational is irrational in general. -/
noncomputable def stdDeviation (st : StatisticsResult) : ℝ :=
  Real.sqrt (st.variance : ℝ)

/-- Date of the first transaction of the spec's Scenario A. -/
def scenarioDateA : String := "2024-01-01"

/-- Date of the second transaction of the spec's Scenario A. -/
def scenarioDateB : String := "2024-01-02"

/-- C3: Scenario A.  Normalizing the two-transaction input
`[{100, expense, 2024-01-01}, {50, income, 2024-01-02}]` produces the
signed value sequence `[-100, +50]`, and the Statistics Calculator on it
returns `mean = -25`, `median = -25`, `total = -50` and `count = 2`. -/
theorem scenarioA_statistics :
    normalize [⟨100, .expense, scenarioDateA⟩, ⟨50, .income, scenarioDateB⟩]
      = .ok [⟨-100, scenarioDateA⟩, ⟨50, scenarioDateB⟩] ∧
    (computeStatistics [-100, 50]).mean = -25 ∧
    (computeStatistics [-100, 50]).median = -25 ∧
    (computeStatistics [-100, 50]).total = -50 ∧
    (computeStatistics [-100, 50]).count = 2 := by
  refine ⟨rfl, ?_, ?_, ?_, rfl⟩ <;>
    norm_num [computeStatistics, medianOfSorted, sortValues,
      List.insertionSort, List.orderedInsert]

/-- C4: the Statistics Calculator on the empty transaction list succeeds
(normalization returns `ok` and the computation is total) and returns the
record with `count = 0` and every other numeric field, every percentile
and the standard deviation included, equal to `0`. -/
theorem empty_statistics_all_zero :
    normalize [] = .ok [] ∧
    computeStatistics [] = ⟨0, 0, 0, 0, 0, 0, 0, 0, 0, 0, 0⟩ ∧
    stdDeviation (computeStatistics []) = 0 := by
  refine ⟨rfl, ?_, ?_⟩
  · norm_num [computeStatistics, medianOfSorted, sortValues, percentileOfSorted,
      interpAt, List.insertionSort, StatisticsResult.mk.injEq]
  · have h : (computeStatistics []).variance = 0 := by
      norm_num [computeStatistics]
    rw [stdDeviation, h]
    norm_num

/-! ### Trend / risk / forecast result records (modelled from the spec) -/

/-- Modelled from the spec: the `TrendResult` output record of the Trend
Analyzer (the moving-average sequence together with the growth-rate and
volatility percentages). -/
structure TrendResult where
  moving_average : List ℚ
  average_growth_rate : ℚ
  trendVolatility : ℚ
deriving DecidableEq

/-- Modelled from the spec: the `RiskResult` output record of the Risk
Analyzer, over the rational-valued fields (its `volatility` and
`sharpe_ratio` involve a square root and are modelled separately as
real-valued functions, see `volatility` and `sharpe`). -/
structure RiskResult where
  variance : ℚ
  mean_return : ℚ
  value_at_risk_95 : ℚ
  max_drawdown : ℚ
deriving DecidableEq

/-- Modelled from the spec: the `ForecastResult` output record of the
Forecaster. -/
structure ForecastResult where
  trend_slope : ℚ
  trend_intercept : ℚ
  forecast_values : List ℚ
deriving DecidableEq

/-! ### The React component (embedded from
`src/components/FinancialAnalytics.js`) -/

/-- A JSON field value appearing in the request payloads the component
builds. -/
inductive JsonValue where
  | num (q : ℚ)
  | str (s : String)
deriving DecidableEq

/-- A prepared transaction object: the ordered field/value pairs of the
object literal built by `prepareTransactions`. -/
def PreparedTx : Type := List (String × JsonValue)

/-- The `date` prop value of a cost record: either a JS `Date` object
(of which `toISOString().split('T')[0]` yields the stored day string) or
already a string. -/
inductive JsDate where
  | dateObj (isoDay : String)
  | plain (s : String)
deriving DecidableEq

/-- An element of the component's `costs` prop: the app stores the amount
under the field `cost`; `description` and `category` may be absent. -/
structure CostRecord where
  cost : ℚ
  kind : String
  date : JsDate
  description : Option String
  category : Option String
deriving DecidableEq

/-- `formatDate` (lines 18–23): a `Date` object is turned into its ISO day
string, anything else is returned unchanged. -/
def formatDate : JsDate → String
  | .dateObj d => d
  | .plain s => s

/-- Field key `cost`. -/
def costKey : String := "cost"

/-- Field key `type`. -/
def typeKey : String := "type"

/-- Field key `date`. -/
def dateKey : String := "date"

/-- Field key `description`. -/
def descriptionKey : String := "description"

/-- Field key `category`. -/
def categoryKey : String := "category"

/-- Field key `amount`, required by the engine's interface contract. -/
def amountKey : String := "amount"

/-- `prepareTransactions` (lines 25–33): each cost record is mapped to the
object literal `{ cost, type, date, description, category }`, with the
date formatted and the two optional strings defaulted to `""`. -/
def prepareTransactions (costs : List CostRecord) : List PreparedTx :=
  costs.map fun c =>
    [(costKey, JsonValue.num c.cost),
     (typeKey, JsonValue.str c.kind),
     (dateKey, JsonValue.str (formatDate c.date)),
     (descriptionKey, JsonValue.str (c.description.getD "")),
     (categoryKey, JsonValue.str (c.category.getD ""))]

/-- Whether an optional field value is a number. -/
def isNumField : Option JsonValue → Bool
  | some (.num _) => true
  | _ => false

/-- Whether an optional field value is a string. -/
def isStrField : Option JsonValue → Bool
  | some (.str _) => true
  | _ => false

/-- Modelled from the spec: the `Transaction` shape of the interface
contract of the four analytics endpoints: a numeric `amount` field
together with string `type` and `date` fields (`description`/`category`
are optional). -/
def hasTransactionShape (tx : PreparedTx) : Bool :=
  isNumField (tx.lookup amountKey) &&
    isStrField (tx.lookup typeKey) && isStrField (tx.lookup dateKey)

/-- The outcome of one endpoint call as seen by `fetchAnalytics`: a
response with `success: true` and a payload, a response with
`success: false` (the `if (data.success)` guard then skips the state
update), or a transport failure (`fetch`/`json` throws, and control jumps
to the `catch` block, so the remaining calls never run). -/
inductive FetchOutcome (α : Type) where
  | ok (payload : α)
  | apiFailure
  | transportFailure
deriving DecidableEq

/-- Whether an outcome is a transport failure. -/
def isTransportFailure {α : Type} : FetchOutcome α → Bool
  | .transportFailure => true
  | _ => false

/-- Whether an outcome is a successful response. -/
def isOk {α : Type} : FetchOutcome α → Bool
  | .ok _ => true
  | _ => false

/-- The state update performed for one endpoint: the result state is
replaced only on a `success: true` response. -/
def applySet {α : Type} (cur : Option α) : FetchOutcome α → Option α
  | .ok d => some d
  | _ => cur

/-- The component's four result states (lines 5–8), each initially
`null`. -/
structure AnalyticsState where
  statistics : Option StatisticsResult
  trends : Option TrendResult
  riskMetrics : Option RiskResult
  forecast : Option ForecastResult
deriving DecidableEq

/-- The initial component state: all four results `null`. -/
def initialAnalyticsState : AnalyticsState := ⟨none, none, none, none⟩

/-- `fetchAnalytics` (lines 35–81): the four endpoints are called in
sequence inside one `try`; each result state is set only on a
`success: true` response, and a transport failure aborts the remaining
calls, leaving every state reached so far as it is. -/
def fetchAnalytics (s : AnalyticsState)
    (o1 : FetchOutcome StatisticsResult) (o2 : FetchOutcome TrendResult)
    (o3 : FetchOutcome RiskResult) (o4 : FetchOutcome ForecastResult) :
    AnalyticsState :=
  if isTransportFailure o1 then s else
  let s1 := { s with statistics := applySet s.statistics o1 }
  if isTransportFailure o2 then s1 else
  let s2 := { s1 with trends := applySet s1.trends o2 }
  if isTransportFailure o3 then s2 else
  let s3 := { s2 with riskMetrics := applySet s2.riskMetrics o3 }
  if isTransportFailure o4 then s3 else
  { s3 with forecast := applySet s3.forecast o4 }

/-- What a tab renders: the explicit no-data placeholder, or a view of the
payload held in the corresponding result state. -/
inductive TabView (α : Type) where
  | noData
  | dataView (payload : α)
deriving DecidableEq

/-- `renderStatistics` (lines 83–134): the placeholder when the
`statistics` state is `null`, otherwise the data view. -/
def renderStatistics (s : AnalyticsState) : TabView StatisticsResult :=
  match s.statistics with
  | none => .noData
  | some d => .dataView d

/-- `renderTrends` (lines 136–164). -/
def renderTrends (s : AnalyticsState) : TabView TrendResult :=
  match s.trends with
  | none => .noData
  | some d => .dataView d

/-- `renderRiskMetrics` (lines 166–200). -/
def renderRiskMetrics (s : AnalyticsState) : TabView RiskResult :=
  match s.riskMetrics with
  | none => .noData
  | some d => .dataView d

/-- `renderForecast` (lines 202–228). -/
def renderForecast (s : AnalyticsState) : TabView ForecastResult :=
  match s.forecast with
  | none => .noData
  | some d => .dataView d

/-- The `useEffect` guard (lines 12–16): `fetchAnalytics` runs only when
`costs && costs.length > 0`; an absent prop is falsy and an empty list has
length `0`. -/
def shouldFetch (costs : Option (List CostRecord)) : Bool :=
  match costs with
  | none => false
  | some l => decide (0 < l.length)

/-- One run of the effect: the analytics fetch happens exactly when the
guard holds, otherwise the state is untouched. -/
def effectRun (costs : Option (List CostRecord)) (s : AnalyticsState)
    (o1 : FetchOutcome StatisticsResult) (o2 : FetchOutcome TrendResult)
    (o3 : FetchOutcome RiskResult) (o4 : FetchOutcome ForecastResult) :
    AnalyticsState :=
  if shouldFetch costs then fetchAnalytics s o1 o2 o3 o4 else s

/-! ### Claims about the component -/

/-- Kind string `expense`. -/
def expenseStr : String := "expense"

/-- The concrete cost record of the C1 failing input: a single expense of
100 on 2024-01-01. -/
def demoCost : CostRecord :=
  { cost := 100, kind := expenseStr, date := .plain scenarioDateA,
    description := none, category := none }

/-- C1: the transaction the component prepares carries its numeric value
under the key `cost` and has no `amount` field at all, so it lacks the
Transaction shape of the interface contract (numeric `amount`, `type`,
`date`).  Shown at the concrete input of a single 100 expense cost. -/
theorem prepared_record_lacks_amount :
    ((prepareTransactions [demoCost]).headD []).lookup amountKey = none ∧
    ((prepareTransactions [demoCost]).headD []).lookup costKey
      = some (JsonValue.num 100) ∧
    hasTransactionShape ((prepareTransactions [demoCost]).headD [])
      = false := by
  exact ⟨rfl, rfl, rfl⟩

/-- A statistics result computed from an earlier costs input, left behind
in the component state by a previous successful fetch. -/
def staleStats : StatisticsResult := computeStatistics [-100, 50]

/-- The component state right after a successful fetch for an earlier
input populated the statistics result. -/
def staleState : AnalyticsState :=
  { initialAnalyticsState with statistics := some staleStats }

/-- C2 (counterexample): after the costs change, a refetch in which every
endpoint answers `success: false` leaves the statistics result computed
from the earlier input in place, and the Statistics tab still renders that
stale view rather than the no-data placeholder the claim requires. -/
theorem stale_view_after_failed_refetch :
    (fetchAnalytics staleState .apiFailure .apiFailure .apiFailure
        .apiFailure).statistics = some staleStats ∧
    renderStatistics (fetchAnalytics staleState .apiFailure .apiFailure
        .apiFailure .apiFailure) = TabView.dataView staleStats := by
  exact ⟨rfl, rfl⟩

/-- A tab whose result state is `null` renders the no-data placeholder. -/
theorem renderStatisticsNoData (s : AnalyticsState)
    (h : s.statistics = none) : renderStatistics s = TabView.noData := by
  simp [renderStatistics, h]

/-- C2 (amended): on any failed (`success: false`) or errored (transport
failure) endpoint call the component leaves the corresponding result state
unchanged rather than clearing it: a tab that was never populated still
renders the no-data placeholder, but a tab populated from an earlier input
keeps displaying the earlier result. -/
theorem failed_fetch_preserves_state (s : AnalyticsState)
    (o1 : FetchOutcome StatisticsResult) (o2 : FetchOutcome TrendResult)
    (o3 : FetchOutcome RiskResult) (o4 : FetchOutcome ForecastResult) :
    (isOk o1 = false →
      (fetchAnalytics s o1 o2 o3 o4).statistics = s.statistics) ∧
    (isOk o2 = false → (fetchAnalytics s o1 o2 o3 o4).trends = s.trends) ∧
    (isOk o3 = false →
      (fetchAnalytics s o1 o2 o3 o4).riskMetrics = s.riskMetrics) ∧
    (isOk o4 = false →
      (fetchAnalytics s o1 o2 o3 o4).forecast = s.forecast) ∧
    ((fetchAnalytics s o1 o2 o3 o4).statistics = none →
      renderStatistics (fetchAnalytics s o1 o2 o3 o4) = TabView.noData) := by
  refine ⟨?_, ?_, ?_, ?_, fun h => renderStatisticsNoData _ h⟩ <;>
    cases o1 <;> cases o2 <;> cases o3 <;> cases o4 <;>
      simp [fetchAnalytics, applySet, isTransportFailure, isOk]

/-- Witness for the amended C2 theorem at a concrete input: starting from
the initial state, four `success: false` responses leave every result
state `null` and the Statistics tab on the placeholder. -/
theorem failed_fetch_preserves_state_witness :
    isOk (FetchOutcome.apiFailure : FetchOutcome StatisticsResult) = false ∧
    (fetchAnalytics initialAnalyticsState .apiFailure .apiFailure
        .apiFailure .apiFailure).statistics
      = initialAnalyticsState.statistics ∧
    renderStatistics (fetchAnalytics initialAnalyticsState .apiFailure
        .apiFailure .apiFailure .apiFailure) = TabView.noData := by
  have h := failed_fetch_preserves_state initialAnalyticsState
    .apiFailure .apiFailure .apiFailure .apiFailure
  exact ⟨rfl, h.1 rfl, h.2.2.2.2 rfl⟩

/-- C10: with an absent or empty `costs` prop the effect issues no
analytics request: whatever the network would have answered, the state
remains the initial all-`null` state and all four tabs render the no-data
placeholder. -/
theorem no_fetch_when_costs_empty
    (o1 : FetchOutcome StatisticsResult) (o2 : FetchOutcome TrendResult)
    (o3 : FetchOutcome RiskResult) (o4 : FetchOutcome ForecastResult) :
    shouldFetch none = false ∧ shouldFetch (some []) = false ∧
    effectRun none initialAnalyticsState o1 o2 o3 o4
      = initialAnalyticsState ∧
    effectRun (some []) initialAnalyticsState o1 o2 o3 o4
      = initialAnalyticsState ∧
    renderStatistics initialAnalyticsState = TabView.noData ∧
    renderTrends initialAnalyticsState = TabView.noData ∧
    renderRiskMetrics initialAnalyticsState = TabView.noData ∧
    renderForecast initialAnalyticsState = TabView.noData := by
  exact ⟨rfl, rfl, rfl, rfl, rfl, rfl, rfl, rfl⟩

/-! ### Trend Analyzer (modelled from the spec) -/

/-- Modelled from the spec: the Trend Analyzer's moving average of window
`w` over the daily net-value sequence, computed by sliding the window one
entry at a time; each element is the arithmetic mean of `w` consecutive
entries, and the sequence is empty when fewer than `w` entries exist. -/
def movingAverage : List ℚ → ℕ → List ℚ
  | [], _ => []
  | v :: rest, w =>
    if (v :: rest).length < w then []
    else ((v :: rest).take w).sum / (w : ℚ) :: movingAverage rest w

/-- C6: for every daily net-value sequence of length `n` and window
`w ≥ 1`, the moving average has length `max(0, n − w + 1)` (in truncated
natural subtraction, `n + 1 − w`), and it is exactly the sequence whose
element `i` is the arithmetic mean of the `w` consecutive entries
`[i, i+w)`; in particular `n < w` yields the empty sequence rather than an
error. -/
theorem movingAverage_spec (vs : List ℚ) (w : ℕ) (hw : 1 ≤ w) :
    (movingAverage vs w).length = vs.length + 1 - w ∧
    movingAverage vs w
      = (List.range (vs.length + 1 - w)).map
          (fun i => ((vs.drop i).take w).sum / (w : ℚ)) ∧
    (vs.length < w → movingAverage vs w = []) := by
  have key : ∀ vs : List ℚ, movingAverage vs w
      = (List.range (vs.length + 1 - w)).map
          (fun i => ((vs.drop i).take w).sum / (w : ℚ)) := by
    intro vs
    induction vs with
    | nil =>
      have h0 : 0 + 1 - w = 0 := by omega
      simp [movingAverage, h0]
    | cons v rest ih =>
      by_cases hlen : (v :: rest).length < w
      · have h0 : (v :: rest).length + 1 - w = 0 := by
          simp only [List.length_cons] at hlen ⊢
          omega
        rw [movingAverage, if_pos hlen, h0]
        simp
      · have hsucc : (v :: rest).length + 1 - w = (rest.length + 1 - w) + 1 := by
          simp only [List.length_cons] at hlen ⊢
          omega
        rw [movingAverage, if_neg hlen, hsucc, List.range_succ_eq_map,
          List.map_cons, List.map_map, ih]
        rfl
  refine ⟨?_, key vs, ?_⟩
  · rw [key vs]
    simp
  · intro hlt
    have h0 : vs.length + 1 - w = 0 := by omega
    rw [key vs, h0]
    simp

/-- Witness for C6 at the spec's Scenario C: 5 daily aggregates with
window 7 give the empty moving average, of length `max(0, 5 − 7 + 1) = 0`,
and not an error. -/
theorem movingAverage_spec_witness :
    (movingAverage [1, 2, 3, 4, 5] 7).length = 5 + 1 - 7 ∧
    movingAverage [1, 2, 3, 4, 5] 7
      = (List.range (5 + 1 - 7)).map
          (fun i => ((([1, 2, 3, 4, 5] : List ℚ).drop i).take 7).sum / (7 : ℚ)) ∧
    (([1, 2, 3, 4, 5] : List ℚ).length < 7 → movingAverage [1, 2, 3, 4, 5] 7 = []) := by
  have h := movingAverage_spec [1, 2, 3, 4, 5] 7 (by norm_num)
  simpa using h

/-! ### Forecaster (modelled from the spec) -/

/-- Modelled from the spec: the Forecaster's ordinary least-squares fit of
net value against the zero-based period index `0..n−1`, returning
`(trend_slope, trend_intercept)`; for `n < 2` the regression is undefined
and the degraded result is slope `0` with the single available value (or
`0`) as intercept. -/
def linearFit (vs : List ℚ) : ℚ × ℚ :=
  if vs.length < 2 then (0, vs.headD 0)
  else
    let n : ℚ := (vs.length : ℚ)
    let sx : ℚ := ∑ i ∈ Finset.range vs.length, (i : ℚ)
    let sy : ℚ := vs.sum
    let sxy : ℚ := ∑ i ∈ Finset.range vs.length, (i : ℚ) * vs.getD i 0
    let sxx : ℚ := ∑ i ∈ Finset.range vs.length, (i : ℚ) ^ 2
    let slope := (n * sxy - sx * sy) / (n * sxx - sx ^ 2)
    (slope, (sy - slope * sx) / n)

/-- Modelled from the spec: `forecast_values` has length `h` and element
`j` equal to `trend_slope · (n + j) + trend_intercept`. -/
def forecastValues (vs : List ℚ) (h : ℕ) : List ℚ :=
  (List.range h).map fun j : ℕ =>
    (linearFit vs).1 * ((vs.length : ℚ) + (j : ℚ)) + (linearFit vs).2

/-- C9: on a flat series of `n ≥ 2` identical values `c` the least-squares
fit has `trend_slope = 0` and intercept `c`, and for every horizon `h` the
forecast is the constant sequence of `h` copies of `c`. -/
theorem flat_series_forecast (n : ℕ) (hn : 2 ≤ n) (c : ℚ) (h : ℕ) :
    linearFit (List.replicate n c) = (0, c) ∧
    forecastValues (List.replicate n c) h = List.replicate h c := by
  have hne : (n : ℚ) ≠ 0 := Nat.cast_ne_zero.mpr (by omega)
  have hsy : (List.replicate n c).sum = (n : ℚ) * c := by
    simp [List.sum_replicate, nsmul_eq_mul]
  have hsxy : ∑ i ∈ Finset.range n, (i : ℚ) * (List.replicate n c).getD i 0
      = (∑ i ∈ Finset.range n, (i : ℚ)) * c := by
    rw [Finset.sum_mul]
    refine Finset.sum_congr rfl ?_
    intro i hi
    rw [List.getD_eq_getElem?_getD,
      List.getElem?_replicate_of_lt (Finset.mem_range.mp hi)]
    rfl
  have hfit : linearFit (List.replicate n c) = (0, c) := by
    rw [linearFit, if_neg (by simp only [List.length_replicate]; omega)]
    simp only [List.length_replicate, hsy, hsxy]
    have hnum : (n : ℚ) * ((∑ i ∈ Finset.range n, (i : ℚ)) * c)
        - (∑ i ∈ Finset.range n, (i : ℚ)) * ((n : ℚ) * c) = 0 := by ring
    rw [hnum, zero_div, Prod.mk.injEq]
    refine ⟨rfl, ?_⟩
    rw [zero_mul, sub_zero]
    exact mul_div_cancel_left₀ c hne
  refine ⟨hfit, ?_⟩
  rw [forecastValues, hfit]
  have hconst : (fun j : ℕ =>
      (((0 : ℚ), c)).1 * (((List.replicate n c).length : ℚ) + (j : ℚ))
        + (((0 : ℚ), c)).2) = fun _ : ℕ => c := by
    funext j
    simp
  rw [hconst, List.map_const', List.length_range]

/-- Witness for C9 at the concrete flat series of two entries of value 5
and horizon 3: slope 0, intercept 5 and forecast `[5, 5, 5]`. -/
theorem flat_series_forecast_witness :
    2 ≤ 2 ∧ linearFit (List.replicate 2 (5 : ℚ)) = (0, 5) ∧
    forecastValues (List.replicate 2 (5 : ℚ)) 3 = List.replicate 3 (5 : ℚ) :=
  ⟨by norm_num, flat_series_forecast 2 (by norm_num) 5 3⟩

/-! ### Risk Analyzer (modelled from the spec) -/

/-- Modelled from the spec: the cumulative sum of the daily net values,
`cumulative vs i = v₀ + ⋯ + vᵢ`. -/
def cumulative (vs : List ℚ) (i : ℕ) : ℚ := (vs.take (i + 1)).sum

/-- Modelled from the spec: the running maximum of the cumulative series
up to index `i`. -/
def runningMax (vs : List ℚ) (i : ℕ) : ℚ :=
  (Finset.range (i + 1)).sup' Finset.nonempty_range_succ (cumulative vs)

/-- Modelled from the spec: the drawdown at index `i`:
`(cumulative[i] − running_max)/running_max` when the running maximum is
nonzero, else `0`. -/
def drawdownAt (vs : List ℚ) (i : ℕ) : ℚ :=
  if runningMax vs i = 0 then 0
  else (cumulative vs i - runningMax vs i) / runningMax vs i

/-- Modelled from the spec: `max_drawdown` is the minimum of the drawdowns
over all indices of the daily aggregate, and `0` when it is empty. -/
def maxDrawdown (vs : List ℚ) : ℚ :=
  if hv : vs.length = 0 then 0
  else (Finset.range vs.length).inf'
    (Finset.nonempty_range_iff.mpr hv) (drawdownAt vs)

/-- The drawdown at index `0` vanishes: the running maximum there is the
first cumulative value itself. -/
theorem drawdownAt_zero (vs : List ℚ) : drawdownAt vs 0 = 0 := by
  have hrm : runningMax vs 0 = cumulative vs 0 := by
    refine le_antisymm ?_ (Finset.le_sup' _ (Finset.mem_range.mpr (by omega)))
    refine Finset.sup'_le _ _ ?_
    intro j hj
    have hj0 : j = 0 := by
      have := Finset.mem_range.mp hj
      omega
    rw [hj0]
  rw [drawdownAt, hrm]
  by_cases hc : cumulative vs 0 = 0
  · rw [if_pos hc]
  · rw [if_neg hc, sub_self, zero_div]

/-- C7: for every daily net-value sequence the maximum drawdown is `≤ 0`,
and it is exactly `0` whenever the cumulative series is monotonically
non-decreasing. -/
theorem maxDrawdown_nonpos (vs : List ℚ) :
    maxDrawdown vs ≤ 0 ∧
    ((∀ i, i < vs.length - 1 → cumulative vs i ≤ cumulative vs (i + 1)) →
      maxDrawdown vs = 0) := by
  by_cases hv : vs.length = 0
  · rw [maxDrawdown, dif_pos hv]
    exact ⟨le_refl 0, fun _ => rfl⟩
  · have h0mem : 0 ∈ Finset.range vs.length := Finset.mem_range.mpr (by omega)
    constructor
    · rw [maxDrawdown, dif_neg hv]
      exact le_trans (Finset.inf'_le _ h0mem) (le_of_eq (drawdownAt_zero vs))
    · intro hmono
      have hmono' : ∀ j i, j ≤ i → i < vs.length →
          cumulative vs j ≤ cumulative vs i := by
        intro j i hji hi
        induction i with
        | zero =>
          have hj0 : j = 0 := by omega
          rw [hj0]
        | succ k ih =>
          rcases Nat.eq_or_lt_of_le hji with hji' | hlt
          · rw [hji']
          · exact le_trans (ih (by omega) (by omega)) (hmono k (by omega))
      have hrm : ∀ i, i < vs.length → runningMax vs i = cumulative vs i := by
        intro i hi
        refine le_antisymm ?_ ?_
        · refine Finset.sup'_le _ _ ?_
          intro j hj
          exact hmono' j i (Nat.lt_succ_iff.mp (Finset.mem_range.mp hj)) hi
        · exact Finset.le_sup' _ (Finset.mem_range.mpr (by omega))
      have hdd : ∀ i, i < vs.length → drawdownAt vs i = 0 := by
        intro i hi
        rw [drawdownAt, hrm i hi]
        by_cases hc : cumulative vs i = 0
        · rw [if_pos hc]
        · rw [if_neg hc, sub_self, zero_div]
      rw [maxDrawdown, dif_neg hv]
      refine le_antisymm ?_ ?_
      · exact le_trans (Finset.inf'_le _ h0mem)
          (le_of_eq (hdd 0 (by omega)))
      · refine Finset.le_inf' _ _ ?_
        intro i hi
        exact ge_of_eq (hdd i (Finset.mem_range.mp hi))

/-- Witness for C7 at the concrete sequence `[1, 1, 2]`, whose cumulative
series `[1, 2, 4]` is non-decreasing: the maximum drawdown is exactly
`0`. -/
theorem maxDrawdown_nonpos_witness :
    (∀ i, i < ([1, 1, 2] : List ℚ).length - 1 →
      cumulative [1, 1, 2] i ≤ cumulative [1, 1, 2] (i + 1)) ∧
    maxDrawdown ([1, 1, 2] : List ℚ) ≤ 0 ∧
    maxDrawdown ([1, 1, 2] : List ℚ) = 0 := by
  have hmono : ∀ i, i < ([1, 1, 2] : List ℚ).length - 1 →
      cumulative [1, 1, 2] i ≤ cumulative [1, 1, 2] (i + 1) := by
    intro i hi
    simp only [List.length_cons, List.length_nil] at hi
    interval_cases i <;> norm_num [cumulative]
  exact ⟨hmono, (maxDrawdown_nonpos [1, 1, 2]).1,
    (maxDrawdown_nonpos [1, 1, 2]).2 hmono⟩

/-- Modelled from the spec: the population mean of a return series
(rational division by zero makes the empty case `0`). -/
def meanReturn (r : List ℚ) : ℚ := r.sum / (r.length : ℚ)

/-- Modelled from the spec: the population variance of a return series. -/
def returnVariance (r : List ℚ) : ℚ :=
  (r.map (fun x => (x - meanReturn r) ^ 2)).sum / (r.length : ℚ)

/-- Modelled from the spec: the Risk Analyzer's `volatility`, the square
root of the population variance of the return series. -/
noncomputable def volatility (r : List ℚ) : ℝ :=
  Real.sqrt ((returnVariance r : ℚ) : ℝ)

/-- Modelled from the spec: `sharpe_ratio = mean_return / volatility` when
`volatility > 0`, else `0` (risk-free rate fixed at zero); the division is
guarded and never performed with a zero divisor. -/
noncomputable def sharpe (r : List ℚ) : ℝ :=
  if 0 < volatility r then (meanReturn r : ℝ) / volatility r else 0

/-- C8: for every return series the volatility is non-negative, the Sharpe
ratio equals `mean_return / volatility` whenever the volatility is
positive, and it equals `0` whenever the volatility is zero. -/
theorem sharpe_guard (r : List ℚ) :
    0 ≤ volatility r ∧
    (0 < volatility r → sharpe r = (meanReturn r : ℝ) / volatility r) ∧
    (volatility r = 0 → sharpe r = 0) := by
  refine ⟨Real.sqrt_nonneg _, ?_, ?_⟩
  · intro h
    rw [sharpe, if_pos h]
  · intro h
    rw [sharpe, if_neg ?_]
    rw [h]
    exact lt_irrefl 0

/-- Witness for C8 at the concrete return series `[1/2, -1/2]`, whose
variance is `1/4` and volatility `1/2 > 0`: the guarded division is
taken. -/
theorem sharpe_guard_witness :
    0 < volatility [1 / 2, -1 / 2] ∧
    sharpe [1 / 2, -1 / 2]
      = (meanReturn [1 / 2, -1 / 2] : ℝ) / volatility [1 / 2, -1 / 2] := by
  have hvar : returnVariance [1 / 2, -1 / 2] = 1 / 4 := by
    norm_num [returnVariance, meanReturn]
  have hpos : 0 < volatility [1 / 2, -1 / 2] := by
    rw [volatility, hvar]
    refine Real.sqrt_pos.mpr ?_
    norm_num
  exact ⟨hpos, (sharpe_guard [1 / 2, -1 / 2]).2.1 hpos⟩

/-! ### Percentile ordering (C5): interpolation lemmas over sorted lists -/

/-- The lookup default is irrelevant in range. -/
theorem getD_of_lt (s : List ℚ) (i : ℕ) (d : ℚ) (h : i < s.length) :
    s.getD i d = s.getD i 0 := by
  rw [List.getD_eq_getElem?_getD, List.getD_eq_getElem?_getD,
    List.getElem?_eq_getElem h]
  rfl

/-- Indexing into an ascending sorted list is monotone. -/
theorem sorted_getD_mono (s : List ℚ) (hs : s.Sorted (· ≤ ·)) {i j : ℕ}
    (hij : i ≤ j) (hj : j < s.length) : s.getD i 0 ≤ s.getD j 0 := by
  have hi : i < s.length := lt_of_le_of_lt hij hj
  rw [List.getD_eq_getElem?_getD, List.getElem?_eq_getElem hi,
    List.getD_eq_getElem?_getD, List.getElem?_eq_getElem hj]
  have h2 := hs.rel_get_of_le
    (show (⟨i, hi⟩ : Fin s.length) ≤ ⟨j, hj⟩ from hij)
  simpa [List.get_eq_getElem] using h2

/-- The floor rank, as a rational, is below the rank. -/
theorem floor_toNat_cast (r : ℚ) (hr0 : 0 ≤ r) :
    ((⌊r⌋.toNat : ℕ) : ℚ) = ((⌊r⌋ : ℤ) : ℚ) := by
  exact_mod_cast congrArg (fun z : ℤ => (z : ℚ))
    (Int.toNat_of_nonneg (Int.floor_nonneg.mpr hr0))

/-- The interpolation slope term is non-negative on a sorted list. -/
theorem interp_diff_nonneg (s : List ℚ) (hs : s.Sorted (· ≤ ·)) (f : ℕ) :
    0 ≤ s.getD (f + 1) (s.getD f 0) - s.getD f 0 := by
  rcases lt_or_le (f + 1) s.length with hlt | hge
  · rw [getD_of_lt s (f + 1) _ hlt]
    exact sub_nonneg.mpr (sorted_getD_mono s hs (Nat.le_succ f) hlt)
  · rw [List.getD_eq_getElem?_getD, List.getElem?_eq_none hge]
    simp

/-- The interpolated value at rank `r` is at least the order statistic at
the floor rank. -/
theorem interpAt_ge (s : List ℚ) (hs : s.Sorted (· ≤ ·)) (r : ℚ)
    (hr0 : 0 ≤ r) : s.getD ⌊r⌋.toNat 0 ≤ interpAt s r := by
  rw [interpAt]
  have ht : 0 ≤ r - (⌊r⌋.toNat : ℚ) := by
    rw [sub_nonneg, floor_toNat_cast r hr0]
    exact Int.floor_le r
  exact le_add_of_nonneg_right (mul_nonneg ht (interp_diff_nonneg s hs _))

/-- The interpolated value at rank `r` is at most the order statistic at
the ceil rank, when the latter is in range. -/
theorem interpAt_le_next (s : List ℚ) (hs : s.Sorted (· ≤ ·)) (r : ℚ)
    (hr0 : 0 ≤ r) (hnext : ⌊r⌋.toNat + 1 < s.length) :
    interpAt s r ≤ s.getD (⌊r⌋.toNat + 1) 0 := by
  rw [interpAt, getD_of_lt s _ _ hnext]
  have ht1 : r - (⌊r⌋.toNat : ℚ) ≤ 1 := by
    have h1 := Int.lt_floor_add_one r
    rw [floor_toNat_cast r hr0]
    linarith
  have hd : 0 ≤ s.getD (⌊r⌋.toNat + 1) 0 - s.getD ⌊r⌋.toNat 0 :=
    sub_nonneg.mpr (sorted_getD_mono s hs (Nat.le_succ _) hnext)
  have h2 : (r - (⌊r⌋.toNat : ℚ)) *
      (s.getD (⌊r⌋.toNat + 1) 0 - s.getD ⌊r⌋.toNat 0)
      ≤ s.getD (⌊r⌋.toNat + 1) 0 - s.getD ⌊r⌋.toNat 0 :=
    mul_le_of_le_one_left hd ht1
  linarith

/-- The interpolated value at an integer rank is the order statistic
there. -/
theorem interpAt_natCast (s : List ℚ) (k : ℕ) :
    interpAt s (k : ℚ) = s.getD k 0 := by
  rw [interpAt, Int.floor_natCast, Int.toNat_ofNat]
  simp

/-- Linear interpolation between order statistics of a sorted list is
monotone in the rank, for ranks within `[0, count − 1]`. -/
theorem interpAt_mono (s : List ℚ) (hs : s.Sorted (· ≤ ·)) (r r' : ℚ)
    (hr0 : 0 ≤ r) (hrr : r ≤ r') (hr' : r' ≤ (s.length : ℚ) - 1) :
    interpAt s r ≤ interpAt s r' := by
  have hr'0 : 0 ≤ r' := le_trans hr0 hrr
  have hn1 : 1 ≤ s.length := by
    rcases Nat.eq_zero_or_pos s.length with h0 | hpos
    · rw [h0] at hr'
      norm_num at hr'
      linarith
    · exact hpos
  have hfloor : ⌊r⌋ ≤ ⌊r'⌋ := Int.floor_le_floor hrr
  have hff' : ⌊r⌋.toNat ≤ ⌊r'⌋.toNat := by omega
  have hcast : ((s.length : ℚ) - 1) = (((s.length : ℤ) - 1 : ℤ) : ℚ) := by
    push_cast
    ring
  have hfl' : ⌊r'⌋ ≤ (s.length : ℤ) - 1 := by
    have h1 := Int.floor_le_floor hr'
    rw [hcast, Int.floor_intCast] at h1
    exact h1
  have hf'n : ⌊r'⌋.toNat < s.length := by omega
  rcases eq_or_lt_of_le hff' with heq | hlt
  · rw [interpAt, interpAt, ← heq]
    have hd := interp_diff_nonneg s hs ⌊r⌋.toNat
    have h2 := mul_le_mul_of_nonneg_right
      (sub_le_sub_right hrr ((⌊r⌋.toNat : ℕ) : ℚ)) hd
    linarith
  · have hstep : ⌊r⌋.toNat + 1 < s.length := by omega
    calc interpAt s r ≤ s.getD (⌊r⌋.toNat + 1) 0 :=
          interpAt_le_next s hs r hr0 hstep
      _ ≤ s.getD ⌊r'⌋.toNat 0 := sorted_getD_mono s hs (by omega) hf'n
      _ ≤ interpAt s r' := interpAt_ge s hs r' hr'0

/-- The head of a list is its entry at index `0`. -/
theorem headD_eq_getD (s : List ℚ) : s.headD 0 = s.getD 0 0 := by
  cases s <;> rfl

/-- The last entry of a list is its entry at index `length − 1`. -/
theorem getLastD_eq_getD (s : List ℚ) :
    s.getLastD 0 = s.getD (s.length - 1) 0 := by
  rw [List.getLastD_eq_getLast?, List.getLast?_eq_getElem?,
    ← List.getD_eq_getElem?_getD]

/-- The midpoint median of a sorted sequence coincides with the
linear-interpolation percentile at rank `(50/100)·(count − 1)`. -/
theorem medianOfSorted_eq_interp (s : List ℚ) (hn : 1 ≤ s.length) :
    medianOfSorted s
      = interpAt s ((50 / 100 : ℚ) * ((s.length : ℚ) - 1)) := by
  rcases Nat.mod_two_eq_zero_or_one s.length with heven | hodd
  · obtain ⟨m, hm⟩ : ∃ m, s.length = 2 * m := ⟨s.length / 2, by omega⟩
    have hm1 : 1 ≤ m := by omega
    have hr : (50 / 100 : ℚ) * ((s.length : ℚ) - 1) = (m : ℚ) - 1 / 2 := by
      rw [hm]
      push_cast
      ring
    have hfl : ⌊(m : ℚ) - 1 / 2⌋ = (m : ℤ) - 1 := by
      rw [Int.floor_eq_iff]
      constructor
      · push_cast
        linarith
      · push_cast
        linarith
    have hft : ⌊(m : ℚ) - 1 / 2⌋.toNat = m - 1 := by
      rw [hfl]
      omega
    have hidx : m - 1 + 1 = m := by omega
    have hmlt : m < s.length := by omega
    have hc : ((m - 1 : ℕ) : ℚ) = (m : ℚ) - 1 := by
      rw [Nat.cast_sub hm1, Nat.cast_one]
    have hdiv2 : s.length / 2 = m := by omega
    rw [medianOfSorted, if_neg (by omega), hr, interpAt, hft, hidx,
      getD_of_lt s m _ hmlt, hc, hdiv2]
    ring
  · obtain ⟨m, hm⟩ : ∃ m, s.length = 2 * m + 1 := ⟨s.length / 2, by omega⟩
    have hr : (50 / 100 : ℚ) * ((s.length : ℚ) - 1) = (m : ℚ) := by
      rw [hm]
      push_cast
      ring
    have hdiv2 : s.length / 2 = m := by omega
    rw [medianOfSorted, if_pos hodd, hr, interpAt_natCast, hdiv2]

/-- C5: for every non-empty signed-value sequence, the statistics result
with its linear-interpolation percentiles satisfies
`min ≤ p25 ≤ median ≤ p75 ≤ max`. -/
theorem percentile_chain (vals : List ℚ) (hne : vals ≠ []) :
    (computeStatistics vals).min ≤ (computeStatistics vals).p25 ∧
    (computeStatistics vals).p25 ≤ (computeStatistics vals).median ∧
    (computeStatistics vals).median ≤ (computeStatistics vals).p75 ∧
    (computeStatistics vals).p75 ≤ (computeStatistics vals).max := by
  have hs : (sortValues vals).Sorted (· ≤ ·) :=
    List.sorted_insertionSort _ vals
  have hlen : (sortValues vals).length = vals.length :=
    List.length_insertionSort _ vals
  have hn : 1 ≤ (sortValues vals).length := by
    rw [hlen]
    exact List.length_pos.mpr hne
  have hq : (0 : ℚ) ≤ ((sortValues vals).length : ℚ) - 1 := by
    have h1 : (1 : ℚ) ≤ ((sortValues vals).length : ℚ) := by exact_mod_cast hn
    linarith
  have hmin : (computeStatistics vals).min = (sortValues vals).headD 0 := rfl
  have hmax : (computeStatistics vals).max
      = (sortValues vals).getLastD 0 := rfl
  have hmed : (computeStatistics vals).median
      = medianOfSorted (sortValues vals) := rfl
  have hp25 : (computeStatistics vals).p25
      = interpAt (sortValues vals)
          ((25 / 100 : ℚ) * (((sortValues vals).length : ℚ) - 1)) := rfl
  have hp75 : (computeStatistics vals).p75
      = interpAt (sortValues vals)
          ((75 / 100 : ℚ) * (((sortValues vals).length : ℚ) - 1)) := rfl
  refine ⟨?_, ?_, ?_, ?_⟩
  · rw [hmin, headD_eq_getD, hp25, ← interpAt_natCast (sortValues vals) 0]
    refine interpAt_mono _ hs _ _ (by norm_num) ?_ ?_
    · simpa using mul_nonneg (by norm_num : (0 : ℚ) ≤ 25 / 100) hq
    · linarith
  · rw [hp25, hmed, medianOfSorted_eq_interp _ hn]
    refine interpAt_mono _ hs _ _ (mul_nonneg (by norm_num) hq) ?_ ?_
    · linarith
    · linarith
  · rw [hmed, hp75, medianOfSorted_eq_interp _ hn]
    refine interpAt_mono _ hs _ _ (mul_nonneg (by norm_num) hq) ?_ ?_
    · linarith
    · linarith
  · rw [hmax, getLastD_eq_getD, hp75]
    have hc : (((sortValues vals).length - 1 : ℕ) : ℚ)
        = ((sortValues vals).length : ℚ) - 1 := by
      rw [Nat.cast_sub hn, Nat.cast_one]
    rw [← interpAt_natCast (sortValues vals) ((sortValues vals).length - 1),
      hc]
    refine interpAt_mono _ hs _ _ (mul_nonneg (by norm_num) hq) ?_ ?_
    · linarith
    · linarith

/-- Witness for C5 at the concrete value sequence `[3, 1, 2]`. -/
theorem percentile_chain_witness :
    ([3, 1, 2] : List ℚ) ≠ [] ∧
    ((computeStatistics [3, 1, 2]).min ≤ (computeStatistics [3, 1, 2]).p25 ∧
    (computeStatistics [3, 1, 2]).p25 ≤ (computeStatistics [3, 1, 2]).median ∧
    (computeStatistics [3, 1, 2]).median ≤ (computeStatistics [3, 1, 2]).p75 ∧
    (computeStatistics [3, 1, 2]).p75 ≤ (computeStatistics [3, 1, 2]).max) :=
  ⟨by simp, percentile_chain [3, 1, 2] (by simp)⟩

end FinanceTracker
